import Mathlib

/-!
Verification development for the `todo_cli` repository (Rust).

The embedding below translates the data model and the operations of the
three source files `src/task.rs`, `src/manager.rs` and `src/main.rs` into
Lean.  Machine integers (`usize`, `i32`) are modelled as `Nat`/`Int`
(the program never comes near an overflow: ids only grow by 1 per add),
fallible operations return `Except`/`Option`, file I/O is modelled by
passing the file content (as a JSON tree) explicitly, and printing is
modelled by returning the reported condition as a value.
-/

namespace TodoCli

/-! ## The task entity, from `src/task.rs` -/

/-- Embeds `enum TaskStatus` of task.rs. -/
inductive TaskStatus where
  | Pending
  | Done
deriving DecidableEq, Repr

/-- Embeds chrono `NaiveDateTime` at second granularity: a calendar
date and wall-clock time with no zone attached.  The program constructs
seconds only as 0, but the type allows any. -/
structure NaiveDateTime where
  year : Nat
  month : Nat
  day : Nat
  hour : Nat
  minute : Nat
  second : Nat
deriving DecidableEq, Repr

/-- Embeds chrono `FixedOffset`: a fixed offset east of UTC in seconds
(`local_minus_utc`). -/
structure FixedOffset where
  local_minus_utc : Int
deriving DecidableEq, Repr

/-- Embeds chrono `DateTime<FixedOffset>`: the wall-clock datetime in the
zone of the offset, together with that offset.  The denoted instant is the
local datetime minus the offset; two values are equal iff instant and
offset agree, which is exactly equality of this structure. -/
structure DateTimeFixed where
  local_dt : NaiveDateTime
  offset : FixedOffset
deriving DecidableEq, Repr

/-- Embeds `struct Task` of task.rs. -/
structure Task where
  id : Nat
  description : String
  status : TaskStatus
  due_date : Option DateTimeFixed
deriving DecidableEq, Repr

/-- Embeds `Task::new` (task.rs lines 33-40): new tasks are always Pending. -/
def Task.new (id : Nat) (description : String) (due_date : Option DateTimeFixed) : Task :=
  { id := id, description := description, status := TaskStatus.Pending, due_date := due_date }

/-- Embeds `Task::mark_done` (task.rs lines 43-45): sets the status to Done. -/
def Task.mark_done (t : Task) : Task :=
  { t with status := TaskStatus.Done }

/-- Embeds `Task::is_pending` (task.rs lines 48-50). -/
def Task.is_pending (t : Task) : Bool :=
  t.status = TaskStatus.Pending

/-! ## The JSON tree

`save_tasks` writes `serde_json::to_string_pretty` of the task vector and
`load_tasks` reads it back with `serde_json::from_str`.  We model the file
content at the level of the JSON value tree (pretty-printing and lexing of
the concrete text are serde_json library internals); the derived serde
code for `Task` is embedded field by field below. -/

/-- A JSON value tree. -/
inductive Json where
  | null
  | str (s : String)
  | num (n : Nat)
  | arr (xs : List Json)
  | obj (fields : List (String × Json))

/-! ## RFC 3339 formatting and parsing of `DateTime<FixedOffset>`

chrono serializes a `DateTime<FixedOffset>` through serde as its RFC 3339
text `YYYY-MM-DDTHH:MM:SS+HH:MM` (fractional seconds omitted when the
nanosecond part is zero, which holds for every datetime this program
builds) and deserializes by parsing that text back. -/

/-- Numeric value of an ASCII digit character. -/
def digit? (c : Char) : Option Nat :=
  if '0' ≤ c ∧ c ≤ '9' then some (c.toNat - '0'.toNat) else none

/-- Zero-padded two-digit rendering. -/
def pad2 (n : Nat) : List Char :=
  [Nat.digitChar (n / 10), Nat.digitChar (n % 10)]

/-- Zero-padded four-digit rendering. -/
def pad4 (n : Nat) : List Char :=
  [Nat.digitChar (n / 1000), Nat.digitChar (n / 100 % 10),
   Nat.digitChar (n / 10 % 10), Nat.digitChar (n % 10)]

/-- RFC 3339 text of the numeric offset: a sign and zero-padded
hours and minutes, as chrono prints a `FixedOffset`. -/
def offsetChars (off : Int) : List Char :=
  (if off < 0 then '-' else '+') ::
    (pad2 (off.natAbs / 3600) ++ ':' :: pad2 (off.natAbs % 3600 / 60))

/-- RFC 3339 text of a `DateTime<FixedOffset>` at second precision. -/
def rfc3339Chars (dt : DateTimeFixed) : List Char :=
  pad4 dt.local_dt.year ++ ('-' :: (pad2 dt.local_dt.month ++ ('-' :: (pad2 dt.local_dt.day ++
    ('T' :: (pad2 dt.local_dt.hour ++ (':' :: (pad2 dt.local_dt.minute ++
    (':' :: (pad2 dt.local_dt.second ++ offsetChars dt.offset.local_minus_utc))))))))))

/-- Consume exactly two digit characters. -/
def parse2 (cs : List Char) : Option (Nat × List Char) :=
  match cs with
  | a :: b :: rest =>
    match digit? a, digit? b with
    | some x, some y => some (x * 10 + y, rest)
    | _, _ => none
  | _ => none

/-- Consume exactly four digit characters. -/
def parse4 (cs : List Char) : Option (Nat × List Char) :=
  match cs with
  | a :: b :: c :: d :: rest =>
    match digit? a, digit? b, digit? c, digit? d with
    | some w, some x, some y, some z => some (((w * 10 + x) * 10 + y) * 10 + z, rest)
    | _, _, _, _ => none
  | _ => none

/-- Consume one expected character. -/
def expectChar (c : Char) (cs : List Char) : Option (List Char) :=
  match cs with
  | x :: rest => if x = c then some rest else none
  | _ => none

/-- Whether a year is a leap year (proleptic Gregorian, as chrono). -/
def isLeapYear (y : Nat) : Bool :=
  y % 4 = 0 ∧ (y % 100 ≠ 0 ∨ y % 400 = 0)

/-- Days in a month of a year, as chrono validates calendar dates. -/
def daysInMonth (y m : Nat) : Nat :=
  if m = 2 then (if isLeapYear y then 29 else 28)
  else if m = 4 ∨ m = 6 ∨ m = 9 ∨ m = 11 then 30
  else 31

/-- Whether year/month/day is a valid calendar date. -/
def validDate (y m d : Nat) : Bool :=
  1 ≤ m ∧ m ≤ 12 ∧ 1 ≤ d ∧ d ≤ daysInMonth y m

/-- Parse the trailing RFC 3339 offset: `Z`, or a sign with hours `:` minutes,
consuming the whole remaining input. -/
def parseOffset (cs : List Char) : Option Int :=
  match cs with
  | [] => none
  | sign :: rest =>
    if sign = 'Z' ∧ rest = [] then some 0
    else
      match parse2 rest with
      | none => none
      | some (hh, r1) =>
        match expectChar ':' r1 with
        | none => none
        | some r2 =>
          match parse2 r2 with
          | some (mm, []) =>
            if hh < 24 ∧ mm < 60 then
              if sign = '+' then some ((hh * 3600 + mm * 60 : Nat) : Int)
              else if sign = '-' then some (-((hh * 3600 + mm * 60 : Nat) : Int))
              else none
            else none
          | _ => none

/-- Parse RFC 3339 text back into a `DateTime<FixedOffset>`, validating the
calendar date and the time-of-day ranges as chrono does. -/
def parseRfc3339 (cs : List Char) : Option DateTimeFixed :=
  (parse4 cs).bind fun p1 =>
  (expectChar '-' p1.2).bind fun r2 =>
  (parse2 r2).bind fun p2 =>
  (expectChar '-' p2.2).bind fun r4 =>
  (parse2 r4).bind fun p3 =>
  (expectChar 'T' p3.2).bind fun r6 =>
  (parse2 r6).bind fun p4 =>
  (expectChar ':' p4.2).bind fun r8 =>
  (parse2 r8).bind fun p5 =>
  (expectChar ':' p5.2).bind fun r10 =>
  (parse2 r10).bind fun p6 =>
  (parseOffset p6.2).bind fun off =>
  if validDate p1.1 p2.1 p3.1 ∧ p4.1 < 24 ∧ p5.1 < 60 ∧ p6.1 < 60 ∧
      -86400 < off ∧ off < 86400 then
    some ⟨⟨p1.1, p2.1, p3.1, p4.1, p5.1, p6.1⟩, ⟨off⟩⟩
  else none

/-- The range invariants chrono maintains on every `DateTime<FixedOffset>`
value that round-trips through its RFC 3339 text: a valid calendar date
with a four-digit year, in-range time of day, and a sub-day offset of
whole minutes (RFC 3339 prints the offset only to minute precision). -/
def DateTimeFixed.InRange (dt : DateTimeFixed) : Prop :=
  dt.local_dt.year < 10000 ∧
  validDate dt.local_dt.year dt.local_dt.month dt.local_dt.day = true ∧
  dt.local_dt.hour < 24 ∧ dt.local_dt.minute < 60 ∧ dt.local_dt.second < 60 ∧
  (60 : Int) ∣ dt.offset.local_minus_utc ∧
  -86400 < dt.offset.local_minus_utc ∧ dt.offset.local_minus_utc < 86400

instance (dt : DateTimeFixed) : Decidable dt.InRange := by
  unfold DateTimeFixed.InRange; infer_instance

/-! ## Serde encoding of tasks

The derived `Serialize`/`Deserialize` for `Task` writes an object with the
four fields in declaration order; `TaskStatus` (unit variants) is written
as a bare string; `Option<DateTime<FixedOffset>>` is `null` or the RFC
3339 string. -/

/-- Serde encoding of `TaskStatus`. -/
def TaskStatus.toJson : TaskStatus → Json
  | TaskStatus.Pending => Json.str "Pending"
  | TaskStatus.Done => Json.str "Done"

/-- Serde decoding of `TaskStatus`. -/
def TaskStatus.fromJson? : Json → Option TaskStatus
  | Json.str s =>
    if s = "Pending" then some TaskStatus.Pending
    else if s = "Done" then some TaskStatus.Done
    else none
  | _ => none

/-- Serde encoding of the optional due date. -/
def dueDateToJson : Option DateTimeFixed → Json
  | none => Json.null
  | some dt => Json.str (String.mk (rfc3339Chars dt))

/-- Serde decoding of the optional due date. -/
def dueDateFromJson? : Json → Option (Option DateTimeFixed)
  | Json.null => some none
  | Json.str s => (parseRfc3339 s.toList).map some
  | _ => none

/-- Serde encoding of a `Task` (task.rs lines 14-24). -/
def Task.toJson (t : Task) : Json :=
  Json.obj [("id", Json.num t.id), ("description", Json.str t.description),
    ("status", t.status.toJson), ("due_date", dueDateToJson t.due_date)]

/-- Serde decoding of a `Task` from the object `save_tasks` writes. -/
def Task.fromJson? : Json → Option Task
  | Json.obj [(k1, Json.num i), (k2, Json.str d), (k3, st), (k4, dd)] =>
    if k1 = "id" ∧ k2 = "description" ∧ k3 = "status" ∧ k4 = "due_date" then
      match TaskStatus.fromJson? st, dueDateFromJson? dd with
      | some status, some due => some ⟨i, d, status, due⟩
      | _, _ => none
    else none
  | _ => none

/-- Serde encoding of the task vector: the JSON value `save_tasks`
(manager.rs lines 64-69) renders to the file. -/
def tasksToJson (ts : List Task) : Json :=
  Json.arr (ts.map Task.toJson)

/-- Serde decoding of the task vector, as `load_tasks` reads the file. -/
def tasksFromJson? : Json → Option (List Task)
  | Json.arr xs => xs.mapM Task.fromJson?
  | _ => none

/-! ## The task manager, from `src/manager.rs`

The `Rc<RefCell<Vec<Task>>>` holding the tasks is only ever touched from
one thread of one process; it is modelled as a plain list inside the
manager state.  The `file_path` field only names the file whose content we
pass around explicitly, so it is dropped from the state. -/

/-- Embeds `struct TaskManager` (manager.rs lines 11-23) minus the file
path: the task vector and the next available id. -/
structure TaskManager where
  tasks : List Task
  next_id : Nat
deriving DecidableEq, Repr

/-- Embeds the Rust expression
`loaded_tasks.iter().map(|t| t.id).max()` of `load_tasks`. -/
def maxIdOf : List Task → Option Nat
  | [] => none
  | t :: ts =>
    match maxIdOf ts with
    | none => some t.id
    | some m => some (max t.id m)

/-- Embeds `TaskManager::load_tasks` (manager.rs lines 44-61).  The file is
passed as `none` when it does not exist, otherwise as the JSON tree of its
content; a tree that does not decode as a task vector is the serde_json
error propagated by the `?`. -/
def load_tasks (file : Option Json) : Except String TaskManager :=
  match file with
  | none => Except.ok { tasks := [], next_id := 0 }
  | some j =>
    match tasksFromJson? j with
    | none => Except.error "serde_json deserialization error"
    | some loaded_tasks =>
      Except.ok { tasks := loaded_tasks,
                  next_id := match maxIdOf loaded_tasks with
                             | none => 0
                             | some max_id => max_id + 1 }

/-- Embeds `TaskManager::save_tasks` (manager.rs lines 64-69): the JSON
tree written over the whole file. -/
def save_tasks (m : TaskManager) : Json :=
  tasksToJson m.tasks

/-- Embeds `TaskManager::add_task` (manager.rs lines 76-84).  The returned
Bool records that a save of the full state was triggered. -/
def add_task (m : TaskManager) (description : String)
    (due_date : Option DateTimeFixed) : TaskManager × Bool :=
  ({ tasks := m.tasks ++ [Task.new m.next_id description due_date],
     next_id := m.next_id + 1 }, true)

/-- The condition `mark_task_done` reports to the user. -/
inductive MarkDoneResult where
  | markedDone (id : Nat)
  | alreadyDone (id : Nat)
  | invalidIndex (index : Nat)
deriving DecidableEq, Repr

/-- Embeds `TaskManager::mark_task_done` (manager.rs lines 118-133):
`tasks.get_mut(index)` then the pending check.  The Bool records whether a
save was triggered. -/
def mark_task_done (m : TaskManager) (index : Nat) :
    TaskManager × MarkDoneResult × Bool :=
  match m.tasks[index]? with
  | some task =>
    if task.is_pending then
      ({ m with tasks := m.tasks.set index task.mark_done },
       MarkDoneResult.markedDone task.id, true)
    else
      (m, MarkDoneResult.alreadyDone task.id, false)
  | none => (m, MarkDoneResult.invalidIndex index, false)

/-- The condition `delete_task` reports to the user. -/
inductive DeleteResult where
  | deleted (description : String) (id : Nat)
  | invalidIndex (index : Nat)
deriving DecidableEq, Repr

/-- Embeds `TaskManager::delete_task` (manager.rs lines 139-150):
bounds check, `Vec::remove(index)`, save.  The Bool records whether a save
was triggered. -/
def delete_task (m : TaskManager) (index : Nat) :
    TaskManager × DeleteResult × Bool :=
  if h : index < m.tasks.length then
    let removed_task := m.tasks.get ⟨index, h⟩
    ({ m with tasks := m.tasks.eraseIdx index },
     DeleteResult.deleted removed_task.description removed_task.id, true)
  else
    (m, DeleteResult.invalidIndex index, false)

/-- Embeds `TaskManager::list_tasks` (manager.rs lines 87-112): a read-only
view of the task vector, no mutation. -/
def list_tasks (m : TaskManager) : List Task :=
  m.tasks

/-! ## Due-date parsing, from `src/main.rs` lines 52-71

The two chrono format strings are `%Y-%m-%d %H:%M` and `%Y-%m-%d`.  chrono
parses the numeric fields leniently (year up to four digits, the other
fields one or two digits, each taken greedily), a space in the format
skips any run of whitespace in the input, literal separators must match
exactly, the whole input must be consumed, and the collected fields must
form a valid calendar date and time of day. -/

/-- The kinds of chrono `ParseError` relevant here, with the display text
chrono gives them. -/
inductive ChronoParseError where
  | invalid
  | outOfRange
  | tooShort
  | tooLong
deriving DecidableEq, Repr

/-- Display text of a chrono parse error. -/
def ChronoParseError.toString : ChronoParseError → String
  | ChronoParseError.invalid => "input contains invalid characters"
  | ChronoParseError.outOfRange => "input is out of range"
  | ChronoParseError.tooShort => "premature end of input"
  | ChronoParseError.tooLong => "trailing input"

/-- Greedily consume up to `maxD` digits, returning the value read, how
many digits were consumed and the rest of the input. -/
def scanNum (maxD : Nat) (acc cnt : Nat) : List Char → Nat × Nat × List Char
  | [] => (acc, cnt, [])
  | c :: cs =>
    match digit? c with
    | some d =>
      if cnt < maxD then scanNum maxD (acc * 10 + d) (cnt + 1) cs
      else (acc, cnt, c :: cs)
    | none => (acc, cnt, c :: cs)

/-- A chrono numeric field: between `minD` and `maxD` digits, greedy. -/
def scanNumber (minD maxD : Nat) (cs : List Char) :
    Except ChronoParseError (Nat × List Char) :=
  match scanNum maxD 0 0 cs with
  | (v, cnt, rest) =>
    if minD ≤ cnt then Except.ok (v, rest)
    else if cs = [] then Except.error ChronoParseError.tooShort
    else Except.error ChronoParseError.invalid

/-- A literal separator in a chrono format string. -/
def scanLit (c : Char) (cs : List Char) : Except ChronoParseError (List Char) :=
  match cs with
  | [] => Except.error ChronoParseError.tooShort
  | x :: rest =>
    if x = c then Except.ok rest else Except.error ChronoParseError.invalid

/-- ASCII whitespace, standing in for the whitespace class a space in a
chrono format string skips over. -/
def isWsChar (c : Char) : Bool :=
  c = ' ' ∨ c = '\t' ∨ c = '\n' ∨ c = '\r'

/-- Skip any run of whitespace (a space item in a chrono format). -/
def skipWs : List Char → List Char
  | [] => []
  | c :: cs => if isWsChar c then skipWs cs else c :: cs

/-- Embeds `NaiveDateTime::parse_from_str(&date_str, "%Y-%m-%d %H:%M")`:
the year, month, day, hour and minute fields with their separators, the
whole input consumed, the fields a valid date and time; seconds are 0. -/
def parseYmdHm (cs : List Char) : Except ChronoParseError NaiveDateTime :=
  match scanNumber 1 4 cs with
  | Except.error e => Except.error e
  | Except.ok (y, r1) =>
  match scanLit '-' r1 with
  | Except.error e => Except.error e
  | Except.ok r2 =>
  match scanNumber 1 2 r2 with
  | Except.error e => Except.error e
  | Except.ok (mo, r3) =>
  match scanLit '-' r3 with
  | Except.error e => Except.error e
  | Except.ok r4 =>
  match scanNumber 1 2 r4 with
  | Except.error e => Except.error e
  | Except.ok (d, r5) =>
  match scanNumber 1 2 (skipWs r5) with
  | Except.error e => Except.error e
  | Except.ok (h, r6) =>
  match scanLit ':' r6 with
  | Except.error e => Except.error e
  | Except.ok r7 =>
  match scanNumber 1 2 r7 with
  | Except.error e => Except.error e
  | Except.ok (mi, r8) =>
  if r8 ≠ [] then Except.error ChronoParseError.tooLong
  else if validDate y mo d ∧ h < 24 ∧ mi < 60 then
    Except.ok ⟨y, mo, d, h, mi, 0⟩
  else Except.error ChronoParseError.outOfRange

/-- Embeds `NaiveDate::parse_from_str(&date_str, "%Y-%m-%d")` followed by
`.and_hms_opt(0, 0, 0).unwrap()`: the date fields with their separators,
the whole input consumed, a valid date; the time defaults to midnight. -/
def parseYmd (cs : List Char) : Except ChronoParseError NaiveDateTime :=
  match scanNumber 1 4 cs with
  | Except.error e => Except.error e
  | Except.ok (y, r1) =>
  match scanLit '-' r1 with
  | Except.error e => Except.error e
  | Except.ok r2 =>
  match scanNumber 1 2 r2 with
  | Except.error e => Except.error e
  | Except.ok (mo, r3) =>
  match scanLit '-' r3 with
  | Except.error e => Except.error e
  | Except.ok r4 =>
  match scanNumber 1 2 r4 with
  | Except.error e => Except.error e
  | Except.ok (d, r5) =>
  if r5 ≠ [] then Except.error ChronoParseError.tooLong
  else if validDate y mo d then Except.ok ⟨y, mo, d, 0, 0, 0⟩
  else Except.error ChronoParseError.outOfRange

/-- Embeds the `or_else` chain of main.rs lines 52-57: try the full
format first, fall back to the date-only format; on a double failure the
error of the second attempt is kept (as `or_else` does). -/
def parseNaiveDue (cs : List Char) : Except ChronoParseError NaiveDateTime :=
  match parseYmdHm cs with
  | Except.ok ndt => Except.ok ndt
  | Except.error _ => parseYmd cs

/-- Embeds chrono `FixedOffset::east_opt`: a fixed offset east of UTC,
failing when the magnitude reaches a full day. -/
def FixedOffset.east_opt (secs : Int) : Option FixedOffset :=
  if -86400 < secs ∧ secs < 86400 then some ⟨secs⟩ else none

/-- Embeds chrono `LocalResult`. -/
inductive LocalResult (α : Type) where
  | single (t : α)
  | ambiguous (a b : α)
  | notFound
deriving DecidableEq, Repr

/-- Embeds `LocalResult::single`: `Some` only for an unambiguous mapping. -/
def LocalResult.single? : LocalResult α → Option α
  | LocalResult.single t => some t
  | _ => none

/-- Embeds `FixedOffset::from_local_datetime`: for a fixed offset every
local datetime maps to exactly one instant, so the result is always
`Single` of the local datetime paired with the offset. -/
def FixedOffset.from_local_datetime (off : FixedOffset) (ndt : NaiveDateTime) :
    LocalResult DateTimeFixed :=
  LocalResult.single ⟨ndt, off⟩

/-- Embeds the whole due-date pipeline of main.rs lines 50-71: the
two-format parse with its error message, the IST offset construction with
its `ok_or`, and `from_local_datetime(..).single()` with its `ok_or`. -/
def parseDueDate (date_str : String) : Except String DateTimeFixed :=
  match parseNaiveDue date_str.toList with
  | Except.error e =>
    Except.error ("Invalid date format: " ++ date_str ++
      ". Expected YYYY-MM-DD HH:MM or YYYY-MM-DD. Error: " ++ e.toString)
  | Except.ok parsed_datetime =>
    match FixedOffset.east_opt (5 * 3600 + 30 * 60) with
    | none => Except.error "Failed to create IST offset"
    | some ist_offset =>
      match (ist_offset.from_local_datetime parsed_datetime).single? with
      | none => Except.error ("Ambiguous or non-existent local time for IST: " ++ date_str)
      | some ist_datetime => Except.ok ist_datetime

/-! ## The command dispatch, from `src/main.rs` lines 41-87

`main` loads the store, runs one command against it, and returns
`Result<(), Box<dyn Error>>`; an `Err` return makes the process exit with
a nonzero status.  The only `?` sites after a successful load are in the
due-date pipeline, so that is the only per-command error that escapes. -/

/-- Embeds `enum Commands` of main.rs. -/
inductive Commands where
  | add (description : String) (due : Option String)
  | list
  | done (index : Nat)
  | delete (index : Nat)

/-- Embeds the `match cli.command` body of `main` on an already loaded
manager: `Except.ok` is `main` returning `Ok(())` (process exit status 0),
`Except.error` is an `Err` propagated out of `main` (nonzero exit). -/
def runCommand (m : TaskManager) : Commands → Except String TaskManager
  | Commands.add description due =>
    match due with
    | none => Except.ok (add_task m description none).1
    | some date_str =>
      match parseDueDate date_str with
      | Except.error e => Except.error e
      | Except.ok dt => Except.ok (add_task m description (some dt)).1
  | Commands.list => Except.ok m
  | Commands.done index => Except.ok (mark_task_done m index).1
  | Commands.delete index => Except.ok (delete_task m index).1

/-- Embeds the whole of `main`: load from the file (the `?` on
`TaskManager::new` makes a load failure fatal), then dispatch. -/
def mainRun (file : Option Json) (c : Commands) : Except String TaskManager :=
  match load_tasks file with
  | Except.error e => Except.error e
  | Except.ok m => runCommand m c

/-! ## Operation traces, for the id-uniqueness claims -/

/-- One mutating store operation of a single process run. -/
inductive Op where
  | add (description : String) (due : Option DateTimeFixed)
  | delete (index : Nat)

/-- Run a sequence of Add and Delete operations, collecting the id
assigned by every Add in order. -/
def runOps (m : TaskManager) : List Op → TaskManager × List Nat
  | [] => (m, [])
  | Op.add d due :: ops =>
    let assigned := m.next_id
    let rest := runOps (add_task m d due).1 ops
    (rest.1, assigned :: rest.2)
  | Op.delete i :: ops => runOps (delete_task m i).1 ops

/-- The in-process invariant relating the counter to the stored ids: the
next available id is strictly greater than the id of every stored task. -/
def Inv (m : TaskManager) : Prop :=
  ∀ t ∈ m.tasks, t.id < m.next_id

instance (m : TaskManager) : Decidable (Inv m) := by
  unfold Inv; infer_instance

/-! # Theorems -/

/-! ## Round-trip helper lemmas -/

theorem digit?_digitChar {d : Nat} (h : d < 10) :
    digit? (Nat.digitChar d) = some d := by
  interval_cases d <;> rfl

theorem parse2_pad2 {n : Nat} (h : n < 100) (r : List Char) :
    parse2 (pad2 n ++ r) = some (n, r) := by
  have h1 : n / 10 < 10 := by omega
  have h2 : n % 10 < 10 := by omega
  simp [pad2, parse2, digit?_digitChar h1, digit?_digitChar h2]
  omega

theorem parse4_pad4 {n : Nat} (h : n < 10000) (r : List Char) :
    parse4 (pad4 n ++ r) = some (n, r) := by
  have h1 : n / 1000 < 10 := by omega
  have h2 : n / 100 % 10 < 10 := by omega
  have h3 : n / 10 % 10 < 10 := by omega
  have h4 : n % 10 < 10 := by omega
  simp [pad4, parse4, digit?_digitChar h1, digit?_digitChar h2,
    digit?_digitChar h3, digit?_digitChar h4]
  omega

theorem expectChar_self (c : Char) (r : List Char) :
    expectChar c (c :: r) = some r := by
  simp [expectChar]

theorem parse2_pad2_nil {n : Nat} (h : n < 100) :
    parse2 (pad2 n) = some (n, []) := by
  have := parse2_pad2 h []
  simpa using this

theorem parseOffset_mk (sign : Char) (hh mm : Nat) (h1 : hh < 24) (h2 : mm < 60) :
    parseOffset (sign :: (pad2 hh ++ ':' :: pad2 mm)) =
      (if sign = '+' then some ((hh * 3600 + mm * 60 : Nat) : Int)
       else if sign = '-' then some (-((hh * 3600 + mm * 60 : Nat) : Int))
       else none) := by
  have hh100 : hh < 100 := by omega
  have hm100 : mm < 100 := by omega
  have hz : ¬(sign = 'Z' ∧ (pad2 hh ++ ':' :: pad2 mm) = []) := by
    simp [pad2]
  simp only [parseOffset, if_neg hz, parse2_pad2 hh100, expectChar_self,
    parse2_pad2_nil hm100]
  rw [if_pos ⟨h1, h2⟩]

theorem parseOffset_offsetChars {off : Int} (hdvd : (60 : Int) ∣ off)
    (hlo : -86400 < off) (hhi : off < 86400) :
    parseOffset (offsetChars off) = some off := by
  have hdvd' : 60 ∣ off.natAbs := by
    have := Int.natAbs_dvd_natAbs.mpr hdvd
    simpa using this
  have ha : off.natAbs < 86400 := by omega
  have hh24 : off.natAbs / 3600 < 24 := by omega
  have hm60 : off.natAbs % 3600 / 60 < 60 := by omega
  by_cases hneg : off < 0
  · have hoc : offsetChars off =
        '-' :: (pad2 (off.natAbs / 3600) ++ ':' :: pad2 (off.natAbs % 3600 / 60)) := by
      rw [offsetChars, if_pos hneg]
    rw [hoc, parseOffset_mk _ _ _ hh24 hm60]
    have hch : ('-' : Char) ≠ '+' := by decide
    rw [if_neg hch, if_pos rfl]
    congr 1
    omega
  · have hoc : offsetChars off =
        '+' :: (pad2 (off.natAbs / 3600) ++ ':' :: pad2 (off.natAbs % 3600 / 60)) := by
      rw [offsetChars, if_neg hneg]
    rw [hoc, parseOffset_mk _ _ _ hh24 hm60, if_pos rfl]
    congr 1
    omega

theorem daysInMonth_le_31 (y m : Nat) : daysInMonth y m ≤ 31 := by
  unfold daysInMonth
  split
  · split <;> omega
  · split <;> omega

theorem validDate_bounds {y m d : Nat} (h : validDate y m d = true) :
    1 ≤ m ∧ m ≤ 12 ∧ 1 ≤ d ∧ d ≤ 31 := by
  unfold validDate at h
  simp only [Bool.and_eq_true, decide_eq_true_eq] at h
  have := daysInMonth_le_31 y m
  omega

theorem parseRfc3339_rfc3339Chars {dt : DateTimeFixed} (h : dt.InRange) :
    parseRfc3339 (rfc3339Chars dt) = some dt := by
  obtain ⟨hy, hvd, hh, hmi, hs, hdvd, hlo, hhi⟩ := h
  obtain ⟨-, hmo12, -, hd31⟩ := validDate_bounds hvd
  have hmo : dt.local_dt.month < 100 := by omega
  have hd : dt.local_dt.day < 100 := by omega
  have hh' : dt.local_dt.hour < 100 := by omega
  have hmi' : dt.local_dt.minute < 100 := by omega
  have hs' : dt.local_dt.second < 100 := by omega
  simp only [rfc3339Chars, parseRfc3339, parse4_pad4 hy, Option.some_bind,
    expectChar_self, parse2_pad2 hmo, parse2_pad2 hd, parse2_pad2 hh',
    parse2_pad2 hmi', parse2_pad2 hs',
    parseOffset_offsetChars hdvd hlo hhi]
  rw [if_pos ⟨hvd, hh, hmi, hs, hlo, hhi⟩]

theorem toList_mk (cs : List Char) : String.toList (String.mk cs) = cs := rfl

theorem status_json_round_trip (s : TaskStatus) :
    TaskStatus.fromJson? s.toJson = some s := by
  cases s <;> rfl

theorem dueDateFromJson?_toJson {due : Option DateTimeFixed}
    (h : ∀ dt, due = some dt → dt.InRange) :
    dueDateFromJson? (dueDateToJson due) = some due := by
  cases due with
  | none => rfl
  | some dt =>
    simp only [dueDateToJson, dueDateFromJson?, toList_mk,
      parseRfc3339_rfc3339Chars (h dt rfl)]
    rfl

theorem task_json_round_trip {t : Task}
    (h : ∀ dt, t.due_date = some dt → dt.InRange) :
    Task.fromJson? t.toJson = some t := by
  obtain ⟨i, d, status, due⟩ := t
  simp only [Task.toJson, Task.fromJson?, status_json_round_trip]
  rw [if_pos (by simp), dueDateFromJson?_toJson h]

theorem tasksFromJson?_toJson {ts : List Task}
    (h : ∀ t ∈ ts, ∀ dt, t.due_date = some dt → dt.InRange) :
    tasksFromJson? (tasksToJson ts) = some ts := by
  induction ts with
  | nil => rfl
  | cons t rest ih =>
    have ht : ∀ dt, t.due_date = some dt → dt.InRange := h t (by simp)
    have hrest : ∀ t ∈ rest, ∀ dt, t.due_date = some dt → dt.InRange := by
      intro u hu
      exact h u (by simp [hu])
    have ihr := ih hrest
    simp only [tasksToJson, tasksFromJson?, List.map_cons, List.mapM_cons,
      task_json_round_trip ht] at ihr ⊢
    rw [ihr]
    rfl

/-! ## Claim C2: save/load round trip -/

/-- C2: serializing a task collection with Save and deserializing it with
Load yields an element-wise identical sequence: same length, same order,
and per task the same id, description, status and due-date instant with
its offset (task equality in this embedding is exactly field-wise
equality, with the due date compared as local time plus offset).  The
hypothesis is the range invariant chrono maintains on every constructible
`DateTime<FixedOffset>` value (valid calendar date, four-digit year,
whole-minute sub-day offset, as RFC 3339 records it). -/
theorem save_load_round_trip (m : TaskManager)
    (h : ∀ t ∈ m.tasks, ∀ dt, t.due_date = some dt → dt.InRange) :
    ∃ m', load_tasks (some (save_tasks m)) = Except.ok m' ∧ m'.tasks = m.tasks := by
  refine ⟨⟨m.tasks, match maxIdOf m.tasks with | none => 0 | some mx => mx + 1⟩, ?_, rfl⟩
  simp only [load_tasks, save_tasks]
  rw [tasksFromJson?_toJson h]

/-- Witness for `save_load_round_trip` at a concrete two-task store, one
task Done with a due date, one Pending without. -/
theorem save_load_round_trip_witness :
    ∃ m', load_tasks (some (save_tasks
        ⟨[⟨0, "buy milk", TaskStatus.Pending, none⟩,
          ⟨1, "call mom", TaskStatus.Done,
            some ⟨⟨2024, 1, 1, 9, 0, 0⟩, ⟨19800⟩⟩⟩], 2⟩)) = Except.ok m' ∧
      m'.tasks = [⟨0, "buy milk", TaskStatus.Pending, none⟩,
          ⟨1, "call mom", TaskStatus.Done,
            some ⟨⟨2024, 1, 1, 9, 0, 0⟩, ⟨19800⟩⟩⟩] :=
  save_load_round_trip _ (by decide)

/-! ## Claim C3: load postcondition -/

/-- C3: if the backing file does not exist, Load succeeds with an empty
task sequence (and counter 0); and after any successful Load the next-id
counter is one greater than the maximum id among the loaded tasks, or
zero when the loaded sequence is empty (`maxIdOf` is the embedded
`iter().map(|t| t.id).max()` of the source, returning `none` exactly on
the empty sequence). -/
theorem load_tasks_postcondition :
    load_tasks none = Except.ok { tasks := [], next_id := 0 } ∧
    ∀ file m, load_tasks file = Except.ok m →
      m.next_id = (match maxIdOf m.tasks with | none => 0 | some mx => mx + 1) := by
  refine ⟨rfl, ?_⟩
  intro file m h
  cases file with
  | none =>
    simp only [load_tasks, Except.ok.injEq] at h
    rw [← h]
    rfl
  | some j =>
    simp only [load_tasks] at h
    cases hj : tasksFromJson? j with
    | none => rw [hj] at h; cases h
    | some l =>
      rw [hj] at h
      simp only [Except.ok.injEq] at h
      rw [← h]

/-- Witness for `load_tasks_postcondition` at a concrete file holding
tasks with ids 3 and 7: reloading it yields counter 8 = max + 1. -/
theorem load_tasks_postcondition_witness :
    (⟨[⟨3, "a", TaskStatus.Pending, none⟩, ⟨7, "b", TaskStatus.Done, none⟩],
        8⟩ : TaskManager).next_id
      = (match maxIdOf [⟨3, "a", TaskStatus.Pending, none⟩,
          ⟨7, "b", TaskStatus.Done, none⟩] with
         | none => 0
         | some mx => mx + 1) :=
  load_tasks_postcondition.2
    (some (save_tasks ⟨[⟨3, "a", TaskStatus.Pending, none⟩,
      ⟨7, "b", TaskStatus.Done, none⟩], 9⟩))
    ⟨[⟨3, "a", TaskStatus.Pending, none⟩, ⟨7, "b", TaskStatus.Done, none⟩], 8⟩
    (by rfl)

/-! ## Claim C4: add postcondition -/

/-- C4: Add constructs a task whose id is the current next-id, status
Pending, and exactly the given description and due date; appends it at
the end leaving every existing task unchanged and in place; increments
next-id by one; and triggers a Save. -/
theorem add_task_postcondition (m : TaskManager) (description : String)
    (due_date : Option DateTimeFixed) :
    (add_task m description due_date).1.tasks =
      m.tasks ++ [{ id := m.next_id, description := description,
                    status := TaskStatus.Pending, due_date := due_date }] ∧
    (add_task m description due_date).1.next_id = m.next_id + 1 ∧
    (add_task m description due_date).2 = true :=
  ⟨rfl, rfl, rfl⟩

/-! ## Claim C5: MarkDone case analysis -/

theorem mark_task_done_oob (m : TaskManager) (index : Nat)
    (hle : m.tasks.length ≤ index) :
    mark_task_done m index = (m, MarkDoneResult.invalidIndex index, false) := by
  simp only [mark_task_done, List.getElem?_eq_none hle]

theorem mark_task_done_of_pending (m : TaskManager) (index : Nat)
    (h : index < m.tasks.length)
    (hp : (m.tasks.get ⟨index, h⟩).status = TaskStatus.Pending) :
    mark_task_done m index =
      ({ m with tasks := m.tasks.set index (m.tasks.get ⟨index, h⟩).mark_done },
       MarkDoneResult.markedDone (m.tasks.get ⟨index, h⟩).id, true) := by
  rw [List.get_eq_getElem] at hp
  simp [mark_task_done, List.getElem?_eq_getElem h, Task.is_pending, hp]

theorem mark_task_done_of_done (m : TaskManager) (index : Nat)
    (h : index < m.tasks.length)
    (hd : (m.tasks.get ⟨index, h⟩).status = TaskStatus.Done) :
    mark_task_done m index =
      (m, MarkDoneResult.alreadyDone (m.tasks.get ⟨index, h⟩).id, false) := by
  rw [List.get_eq_getElem] at hd
  simp [mark_task_done, List.getElem?_eq_getElem h, Task.is_pending, hd]

/-- C5: MarkDone on an out-of-bounds position reports an invalid-index
condition without mutating or saving; in bounds on a Pending task it
flips the status to Done and triggers a Save; in bounds on a Done task
it reports already-done, leaves the store unchanged and does not save. -/
theorem mark_task_done_cases (m : TaskManager) (index : Nat) :
    (m.tasks.length ≤ index →
      mark_task_done m index = (m, MarkDoneResult.invalidIndex index, false)) ∧
    (∀ h : index < m.tasks.length,
      (m.tasks.get ⟨index, h⟩).status = TaskStatus.Pending →
        mark_task_done m index =
          ({ m with tasks := m.tasks.set index (m.tasks.get ⟨index, h⟩).mark_done },
           MarkDoneResult.markedDone (m.tasks.get ⟨index, h⟩).id, true)) ∧
    (∀ h : index < m.tasks.length,
      (m.tasks.get ⟨index, h⟩).status = TaskStatus.Done →
        mark_task_done m index =
          (m, MarkDoneResult.alreadyDone (m.tasks.get ⟨index, h⟩).id, false)) :=
  ⟨mark_task_done_oob m index,
   mark_task_done_of_pending m index,
   mark_task_done_of_done m index⟩

/-- Witness for `mark_task_done_cases`: all three cases at a concrete
two-task store. -/
theorem mark_task_done_cases_witness :
    mark_task_done ⟨[⟨0, "a", TaskStatus.Pending, none⟩,
        ⟨1, "b", TaskStatus.Done, none⟩], 2⟩ 5 =
      (⟨[⟨0, "a", TaskStatus.Pending, none⟩, ⟨1, "b", TaskStatus.Done, none⟩], 2⟩,
       MarkDoneResult.invalidIndex 5, false) ∧
    mark_task_done ⟨[⟨0, "a", TaskStatus.Pending, none⟩,
        ⟨1, "b", TaskStatus.Done, none⟩], 2⟩ 0 =
      (⟨[⟨0, "a", TaskStatus.Done, none⟩, ⟨1, "b", TaskStatus.Done, none⟩], 2⟩,
       MarkDoneResult.markedDone 0, true) ∧
    mark_task_done ⟨[⟨0, "a", TaskStatus.Pending, none⟩,
        ⟨1, "b", TaskStatus.Done, none⟩], 2⟩ 1 =
      (⟨[⟨0, "a", TaskStatus.Pending, none⟩, ⟨1, "b", TaskStatus.Done, none⟩], 2⟩,
       MarkDoneResult.alreadyDone 1, false) :=
  ⟨(mark_task_done_cases _ 5).1 (by decide),
   (mark_task_done_cases _ 0).2.1 (by decide) (by decide),
   (mark_task_done_cases _ 1).2.2 (by decide) (by decide)⟩

/-! ## Claim C9: MarkDone frame property -/

/-- C9: for an in-bounds position, MarkDone changes at most the status
field of the task at that position: the length of the sequence, every
other position, the id, description and due date at the position, and
the counter are all unchanged. -/
theorem mark_task_done_frame (m : TaskManager) (index : Nat)
    (h : index < m.tasks.length) :
    (mark_task_done m index).1.tasks.length = m.tasks.length ∧
    (∀ j, j ≠ index → (mark_task_done m index).1.tasks[j]? = m.tasks[j]?) ∧
    ((mark_task_done m index).1.tasks[index]?.map Task.id
      = m.tasks[index]?.map Task.id) ∧
    ((mark_task_done m index).1.tasks[index]?.map Task.description
      = m.tasks[index]?.map Task.description) ∧
    ((mark_task_done m index).1.tasks[index]?.map Task.due_date
      = m.tasks[index]?.map Task.due_date) ∧
    (mark_task_done m index).1.next_id = m.next_id := by
  by_cases hp : (m.tasks.get ⟨index, h⟩).status = TaskStatus.Pending
  · rw [mark_task_done_of_pending m index h hp]
    refine ⟨List.length_set _ _ _, ?_, ?_, ?_, ?_, rfl⟩
    · intro j hj
      exact List.getElem?_set_ne (Ne.symm hj)
    · rw [List.getElem?_set_eq_of_lt _ h, List.getElem?_eq_getElem h]
      rfl
    · rw [List.getElem?_set_eq_of_lt _ h, List.getElem?_eq_getElem h]
      rfl
    · rw [List.getElem?_set_eq_of_lt _ h, List.getElem?_eq_getElem h]
      rfl
  · have hd : (m.tasks.get ⟨index, h⟩).status = TaskStatus.Done := by
      rcases hst : (m.tasks.get ⟨index, h⟩).status with _ | _
      · exact absurd hst hp
      · rfl
    rw [mark_task_done_of_done m index h hd]
    exact ⟨rfl, fun j hj => rfl, rfl, rfl, rfl, rfl⟩

/-- Witness for `mark_task_done_frame` at position 0 of a concrete
store. -/
theorem mark_task_done_frame_witness :
    (mark_task_done ⟨[⟨4, "a", TaskStatus.Pending,
        some ⟨⟨2024, 3, 15, 14, 30, 0⟩, ⟨19800⟩⟩⟩,
        ⟨5, "b", TaskStatus.Pending, none⟩], 6⟩ 0).1.tasks.length = 2 ∧
    (mark_task_done ⟨[⟨4, "a", TaskStatus.Pending,
        some ⟨⟨2024, 3, 15, 14, 30, 0⟩, ⟨19800⟩⟩⟩,
        ⟨5, "b", TaskStatus.Pending, none⟩], 6⟩ 0).1.tasks[0]?.map Task.id
      = some 4 := by
  have h := mark_task_done_frame ⟨[⟨4, "a", TaskStatus.Pending,
      some ⟨⟨2024, 3, 15, 14, 30, 0⟩, ⟨19800⟩⟩⟩,
      ⟨5, "b", TaskStatus.Pending, none⟩], 6⟩ 0 (by decide)
  exact ⟨h.1, by rw [h.2.2.1]; rfl⟩

/-! ## Claim C6: Delete case analysis -/

/-- C6: Delete on an out-of-bounds position reports an invalid-index
condition and leaves the store unchanged with no save; in bounds it
removes exactly the task at the position (the result is the prefix before
it followed by the suffix after it, so every later task shifts down one
position in order), keeps the counter, triggers a Save, and reports the
description and id of the removed task. -/
theorem delete_task_cases (m : TaskManager) (index : Nat) :
    (m.tasks.length ≤ index →
      delete_task m index = (m, DeleteResult.invalidIndex index, false)) ∧
    (∀ h : index < m.tasks.length,
      (delete_task m index).1.tasks = m.tasks.take index ++ m.tasks.drop (index + 1) ∧
      (delete_task m index).1.tasks.length + 1 = m.tasks.length ∧
      (∀ j, j < index → (delete_task m index).1.tasks[j]? = m.tasks[j]?) ∧
      (∀ j, index ≤ j → (delete_task m index).1.tasks[j]? = m.tasks[j + 1]?) ∧
      (delete_task m index).1.next_id = m.next_id ∧
      (delete_task m index).2.1 = DeleteResult.deleted
        (m.tasks.get ⟨index, h⟩).description (m.tasks.get ⟨index, h⟩).id ∧
      (delete_task m index).2.2 = true) := by
  constructor
  · intro hle
    simp only [delete_task]
    rw [dif_neg (by omega)]
  · intro h
    simp only [delete_task]
    rw [dif_pos h]
    refine ⟨List.eraseIdx_eq_take_drop_succ _ _, ?_, ?_, ?_, rfl, rfl, rfl⟩
    · rw [List.length_eraseIdx, if_pos h]
      omega
    · intro j hj
      rw [List.getElem?_eraseIdx, if_pos hj]
    · intro j hj
      rw [List.getElem?_eraseIdx, if_neg (by omega)]

/-- Witness for `delete_task_cases`: both cases at a concrete three-task
store, deleting the middle task. -/
theorem delete_task_cases_witness :
    delete_task ⟨[⟨0, "a", TaskStatus.Pending, none⟩,
        ⟨1, "b", TaskStatus.Done, none⟩,
        ⟨2, "c", TaskStatus.Pending, none⟩], 3⟩ 7 =
      (⟨[⟨0, "a", TaskStatus.Pending, none⟩, ⟨1, "b", TaskStatus.Done, none⟩,
         ⟨2, "c", TaskStatus.Pending, none⟩], 3⟩, DeleteResult.invalidIndex 7, false) ∧
    (delete_task ⟨[⟨0, "a", TaskStatus.Pending, none⟩,
        ⟨1, "b", TaskStatus.Done, none⟩,
        ⟨2, "c", TaskStatus.Pending, none⟩], 3⟩ 1).1.tasks =
      [⟨0, "a", TaskStatus.Pending, none⟩, ⟨2, "c", TaskStatus.Pending, none⟩] ∧
    (delete_task ⟨[⟨0, "a", TaskStatus.Pending, none⟩,
        ⟨1, "b", TaskStatus.Done, none⟩,
        ⟨2, "c", TaskStatus.Pending, none⟩], 3⟩ 1).2.1 =
      DeleteResult.deleted "b" 1 := by
  have h := (delete_task_cases ⟨[⟨0, "a", TaskStatus.Pending, none⟩,
      ⟨1, "b", TaskStatus.Done, none⟩,
      ⟨2, "c", TaskStatus.Pending, none⟩], 3⟩ 1).2 (by decide)
  exact ⟨(delete_task_cases _ 7).1 (by decide), by rw [h.1]; rfl,
    by rw [h.2.2.2.2.2.1]; rfl⟩

/-! ## Claim C10: the next-id counter dominates every stored id -/

theorem le_maxIdOf {t : Task} {l : List Task} (h : t ∈ l) :
    ∃ mx, maxIdOf l = some mx ∧ t.id ≤ mx := by
  induction l with
  | nil => cases h
  | cons a l ih =>
    rcases List.mem_cons.mp h with rfl | hmem
    · cases hml : maxIdOf l with
      | none => exact ⟨t.id, by simp [maxIdOf, hml], le_refl _⟩
      | some mx => exact ⟨max t.id mx, by simp [maxIdOf, hml], le_max_left _ _⟩
    · obtain ⟨mx, hmx, hle⟩ := ih hmem
      exact ⟨max a.id mx, by simp [maxIdOf, hmx], le_trans hle (le_max_right _ _)⟩

theorem delete_task_next_id (m : TaskManager) (index : Nat) :
    (delete_task m index).1.next_id = m.next_id := by
  simp only [delete_task]
  split <;> rfl

/-- C10: the invariant `Inv` (next_id strictly greater than every stored
id) holds after every successful Load and is preserved by Add, MarkDone,
Delete and List; consequently the task Add constructs gets an id distinct
from every id currently present. -/
theorem next_id_invariant :
    (∀ file m, load_tasks file = Except.ok m → Inv m) ∧
    (∀ m description due, Inv m → Inv (add_task m description due).1) ∧
    (∀ m description due, Inv m →
      ∀ t ∈ m.tasks, t.id ≠ (Task.new m.next_id description due).id) ∧
    (∀ m index, Inv m → Inv (mark_task_done m index).1) ∧
    (∀ m index, Inv m → Inv (delete_task m index).1) ∧
    (∀ m, Inv m → ∀ t ∈ list_tasks m, t.id < m.next_id) := by
  refine ⟨?_, ?_, ?_, ?_, ?_, ?_⟩
  · intro file m h
    cases file with
    | none =>
      simp only [load_tasks, Except.ok.injEq] at h
      rw [← h]
      intro t ht
      cases ht
    | some j =>
      simp only [load_tasks] at h
      cases hj : tasksFromJson? j with
      | none => rw [hj] at h; cases h
      | some l =>
        rw [hj] at h
        simp only [Except.ok.injEq] at h
        rw [← h]
        intro t ht
        obtain ⟨mx, hmx, hle⟩ := le_maxIdOf ht
        simp only [hmx]
        omega
  · intro m description due hInv t ht
    rcases List.mem_append.mp ht with hmem | hnew
    · exact lt_trans (hInv t hmem) (Nat.lt_succ_self _)
    · rcases List.mem_singleton.mp hnew with rfl
      exact Nat.lt_succ_self _
  · intro m description due hInv t ht
    exact Nat.ne_of_lt (hInv t ht)
  · intro m index hInv
    by_cases h : index < m.tasks.length
    · by_cases hp : (m.tasks.get ⟨index, h⟩).status = TaskStatus.Pending
      · rw [mark_task_done_of_pending m index h hp]
        intro t ht
        rcases List.mem_or_eq_of_mem_set ht with hmem | rfl
        · exact hInv t hmem
        · exact hInv (m.tasks.get ⟨index, h⟩) (List.get_mem _ _ _)
      · have hd : (m.tasks.get ⟨index, h⟩).status = TaskStatus.Done := by
          rcases hst : (m.tasks.get ⟨index, h⟩).status with _ | _
          · exact absurd hst hp
          · rfl
        rw [mark_task_done_of_done m index h hd]
        exact hInv
    · rw [mark_task_done_oob m index (by omega)]
      exact hInv
  · intro m index hInv
    by_cases h : index < m.tasks.length
    · intro t ht
      rw [delete_task_next_id]
      simp only [delete_task, dif_pos h] at ht
      exact hInv t (List.mem_of_mem_eraseIdx ht)
    · intro t ht
      rw [delete_task_next_id]
      simp only [delete_task, dif_neg h] at ht
      exact hInv t ht
  · intro m hInv t ht
    exact hInv t ht

/-- Witness for `next_id_invariant` at concrete stores. -/
theorem next_id_invariant_witness :
    Inv { tasks := [⟨3, "a", TaskStatus.Pending, none⟩,
          ⟨7, "b", TaskStatus.Done, none⟩], next_id := 8 } ∧
    Inv (add_task ⟨[⟨0, "a", TaskStatus.Pending, none⟩], 1⟩ "b" none).1 ∧
    Inv (mark_task_done ⟨[⟨0, "a", TaskStatus.Pending, none⟩], 1⟩ 0).1 ∧
    Inv (delete_task ⟨[⟨0, "a", TaskStatus.Pending, none⟩], 1⟩ 0).1 :=
  ⟨next_id_invariant.1
      (some (save_tasks ⟨[⟨3, "a", TaskStatus.Pending, none⟩,
        ⟨7, "b", TaskStatus.Done, none⟩], 9⟩))
      { tasks := [⟨3, "a", TaskStatus.Pending, none⟩,
          ⟨7, "b", TaskStatus.Done, none⟩], next_id := 8 } (by rfl),
   next_id_invariant.2.1 _ "b" none (by decide),
   next_id_invariant.2.2.2.1 _ 0 (by decide),
   next_id_invariant.2.2.2.2.1 _ 0 (by decide)⟩

/-! ## Claim C1: id uniqueness across the store lifetime -/

theorem runOps_next_id_le (m : TaskManager) (ops : List Op) :
    m.next_id ≤ (runOps m ops).1.next_id ∧
    ∀ x ∈ (runOps m ops).2, m.next_id ≤ x := by
  induction ops generalizing m with
  | nil => exact ⟨le_refl _, by simp [runOps]⟩
  | cons op ops ih =>
    cases op with
    | add d due =>
      have h := ih (add_task m d due).1
      refine ⟨le_trans (Nat.le_succ _) h.1, ?_⟩
      intro x hx
      simp only [runOps] at hx
      rcases List.mem_cons.mp hx with rfl | hmem
      · exact le_refl _
      · exact le_trans (Nat.le_succ _) (h.2 x hmem)
    | delete i =>
      have h := ih (delete_task m i).1
      rw [delete_task_next_id] at h
      exact ⟨h.1, fun x hx => h.2 x hx⟩

/-- C1 as amended: within one process run, over every sequence of Add and
Delete operations from any starting state, the ids assigned by Add are
pairwise strictly increasing in order of assignment — in particular
strictly monotone and never repeated, even interleaved with Delete.  (The
cross-reload half of the original claim is refuted by
`id_reused_after_reload`.) -/
theorem runOps_ids_strictly_increasing (m : TaskManager) (ops : List Op) :
    List.Pairwise (· < ·) (runOps m ops).2 := by
  induction ops generalizing m with
  | nil => simp [runOps]
  | cons op ops ih =>
    cases op with
    | add d due =>
      simp only [runOps]
      rw [List.pairwise_cons]
      refine ⟨?_, ih _⟩
      intro x hx
      have hle := (runOps_next_id_le (add_task m d due).1 ops).2 x hx
      exact lt_of_lt_of_le (Nat.lt_succ_self _) hle
    | delete i =>
      simp only [runOps]
      exact ih _

/-- C1 counterexample: starting from an empty store, add "a" (id 0) and
"b" (id 1), delete position 1 (the task with id 1), save the store and
reload it; the reloaded counter is 1 again, so the next add assigns id 1
a second time even though id 1 was assigned earlier in the lifetime of
the store and belonged to a deleted task. -/
theorem id_reused_after_reload :
    (runOps ⟨[], 0⟩ [Op.add "a" none, Op.add "b" none, Op.delete 1]).2 = [0, 1] ∧
    load_tasks (some (save_tasks
        (runOps ⟨[], 0⟩ [Op.add "a" none, Op.add "b" none, Op.delete 1]).1))
      = Except.ok ⟨[⟨0, "a", TaskStatus.Pending, none⟩], 1⟩ ∧
    (runOps ⟨[⟨0, "a", TaskStatus.Pending, none⟩], 1⟩ [Op.add "c" none]).2 = [1] :=
  ⟨rfl, rfl, rfl⟩

/-! ## Claim C7: due-date normalization -/

theorem east_opt_IST :
    FixedOffset.east_opt (5 * 3600 + 30 * 60) = some ⟨19800⟩ := rfl

/-- C7: the due-date pipeline first tries `YYYY-MM-DD HH:MM`; on failure
it tries `YYYY-MM-DD` whose result always has the time defaulted to
midnight; when both fail it produces an error naming the offending string
and both accepted formats; and every successful parse carries the fixed
UTC+5:30 offset (19800 seconds), never any other zone. -/
theorem parseDueDate_normalization :
    (∀ s ndt, parseYmdHm s.toList = Except.ok ndt →
      parseDueDate s = Except.ok ⟨ndt, ⟨19800⟩⟩) ∧
    (∀ s e ndt, parseYmdHm s.toList = Except.error e →
      parseYmd s.toList = Except.ok ndt →
      parseDueDate s = Except.ok ⟨ndt, ⟨19800⟩⟩) ∧
    (∀ (cs : List Char) ndt, parseYmd cs = Except.ok ndt →
      ndt.hour = 0 ∧ ndt.minute = 0 ∧ ndt.second = 0) ∧
    (∀ s e1 e2, parseYmdHm s.toList = Except.error e1 →
      parseYmd s.toList = Except.error e2 →
      parseDueDate s = Except.error ("Invalid date format: " ++ s ++
        ". Expected YYYY-MM-DD HH:MM or YYYY-MM-DD. Error: " ++ e2.toString)) ∧
    (∀ s dt, parseDueDate s = Except.ok dt → dt.offset = ⟨19800⟩) := by
  refine ⟨?_, ?_, ?_, ?_, ?_⟩
  · intro s ndt h
    simp only [parseDueDate, parseNaiveDue, h, east_opt_IST,
      FixedOffset.from_local_datetime, LocalResult.single?]
  · intro s e ndt h1 h2
    simp only [parseDueDate, parseNaiveDue, h1, h2, east_opt_IST,
      FixedOffset.from_local_datetime, LocalResult.single?]
  · intro cs ndt h
    simp only [parseYmd] at h
    repeat' split at h
    all_goals cases h
    all_goals exact ⟨rfl, rfl, rfl⟩
  · intro s e1 e2 h1 h2
    simp only [parseDueDate, parseNaiveDue, h1, h2]
  · intro s dt h
    cases hn : parseNaiveDue s.toList with
    | error e => simp only [parseDueDate, hn] at h; cases h
    | ok ndt =>
      simp only [parseDueDate, hn, east_opt_IST, FixedOffset.from_local_datetime,
        LocalResult.single?, Except.ok.injEq] at h
      rw [← h]

/-- Witness for `parseDueDate_normalization` at the concrete inputs of
the testable-properties section of the specification. -/
theorem parseDueDate_normalization_witness :
    parseDueDate "2024-03-15 14:30"
      = Except.ok ⟨⟨2024, 3, 15, 14, 30, 0⟩, ⟨19800⟩⟩ ∧
    parseDueDate "2024-03-15"
      = Except.ok ⟨⟨2024, 3, 15, 0, 0, 0⟩, ⟨19800⟩⟩ ∧
    parseDueDate "2024-13-01"
      = Except.error ("Invalid date format: 2024-13-01. Expected YYYY-MM-DD HH:MM or YYYY-MM-DD. Error: input is out of range") ∧
    parseDueDate "not-a-date"
      = Except.error ("Invalid date format: not-a-date. Expected YYYY-MM-DD HH:MM or YYYY-MM-DD. Error: input contains invalid characters") :=
  ⟨parseDueDate_normalization.1 "2024-03-15 14:30" ⟨2024, 3, 15, 14, 30, 0⟩ (by rfl),
   parseDueDate_normalization.2.1 "2024-03-15" ChronoParseError.tooShort
     ⟨2024, 3, 15, 0, 0, 0⟩ (by rfl) (by rfl),
   parseDueDate_normalization.2.2.2.1 "2024-13-01" ChronoParseError.tooShort
     ChronoParseError.outOfRange (by rfl) (by rfl),
   parseDueDate_normalization.2.2.2.1 "not-a-date" ChronoParseError.invalid
     ChronoParseError.invalid (by rfl) (by rfl)⟩

/-! ## Claim C8: exit behavior -/

/-- C8 counterexample: an invocation whose only failure is a due-date
string matching neither accepted format makes `main` return an error
(`runCommand` propagates the parse error), which is a nonzero process
exit — contradicting the claim that such an invocation does not abort
with a nonzero process-level failure. -/
theorem bad_date_aborts_with_error :
    runCommand ⟨[], 0⟩ (Commands.add "x" (some "not-a-date"))
      = Except.error ("Invalid date format: not-a-date. Expected YYYY-MM-DD HH:MM or YYYY-MM-DD. Error: input contains invalid characters") ∧
    (runCommand ⟨[], 0⟩ (Commands.add "x" (some "not-a-date"))).isOk = false :=
  ⟨rfl, rfl⟩

/-- C8 as amended: invalid indices passed to done/delete (and the
already-done case), list, and adds with a well-formed or absent due date
all leave `main` returning success (exit status zero); a due-date string
matching neither accepted format aborts the add with the parse error
propagated out of `main` (nonzero exit), and storage deserialization
failures during the initial load are likewise fatal. -/
theorem recoverable_vs_fatal_errors :
    (∀ m index, (runCommand m (Commands.done index)).isOk = true) ∧
    (∀ m index, (runCommand m (Commands.delete index)).isOk = true) ∧
    (∀ m, (runCommand m Commands.list).isOk = true) ∧
    (∀ m d, (runCommand m (Commands.add d none)).isOk = true) ∧
    (∀ m d s dt, parseDueDate s = Except.ok dt →
      (runCommand m (Commands.add d (some s))).isOk = true) ∧
    (∀ m d s e, parseDueDate s = Except.error e →
      runCommand m (Commands.add d (some s)) = Except.error e) ∧
    (∀ file e, load_tasks file = Except.error e → ∀ c, mainRun file c = Except.error e) := by
  refine ⟨fun m index => rfl, fun m index => rfl, fun m => rfl, fun m d => rfl, ?_, ?_, ?_⟩
  · intro m d s dt h
    simp only [runCommand, h]
    rfl
  · intro m d s e h
    simp only [runCommand, h]
  · intro file e h c
    simp only [mainRun, h]

/-- Witness for `recoverable_vs_fatal_errors`: a parseable due date, a
bad due date, and a malformed file. -/
theorem recoverable_vs_fatal_errors_witness :
    (runCommand ⟨[], 0⟩ (Commands.add "x" (some "2024-03-15"))).isOk = true ∧
    runCommand ⟨[], 0⟩ (Commands.add "x" (some "nope"))
      = Except.error ("Invalid date format: nope. Expected YYYY-MM-DD HH:MM or YYYY-MM-DD. Error: input contains invalid characters") ∧
    mainRun (some (Json.num 3)) Commands.list
      = Except.error "serde_json deserialization error" :=
  ⟨recoverable_vs_fatal_errors.2.2.2.2.1 ⟨[], 0⟩ "x" "2024-03-15"
     ⟨⟨2024, 3, 15, 0, 0, 0⟩, ⟨19800⟩⟩ (by rfl),
   recoverable_vs_fatal_errors.2.2.2.2.2.1 ⟨[], 0⟩ "x" "nope" _ (by rfl),
   recoverable_vs_fatal_errors.2.2.2.2.2.2 (some (Json.num 3)) _ (by rfl) Commands.list⟩

end TodoCli
